import Mathlib

/-!
Verification development for the UDP room/relay server (`udp_server.py`).

The server keeps two global dictionaries:
  * `rooms`           : room code ↦ set of member addresses,
  * `client_to_room`  : client address ↦ room code,
and processes inbound datagrams one at a time: `create_room`, `join_room`,
`send_transform`, plus a cleanup path run from the generic exception handler.

Python dictionaries are modelled as association lists with unique keys
(lookup takes the first hit, assignment replaces in place or appends,
deletion removes the key); the member *set* of a room is modelled as a
duplicate-free list (adding is a no-op when the element is present).
Participant addresses are opaque; we model them as natural numbers.
The wire decoding of a datagram is an external collaborator; the handler
receives the raw bytes together with the decode outcome (`Parsed`).
`random.choices` is modelled by an index stream `rng : Nat → Nat` taken
modulo the alphabet size.
-/

/-- A participant identity: the opaque transport address tuple. -/
abbrev Addr := Nat

/-- Association-list lookup: first binding of the key, like a Python dict read. -/
def dlookup {α β : Type} [DecidableEq α] : List (α × β) → α → Option β
  | [], _ => none
  | (k', v') :: t, k => if k = k' then some v' else dlookup t k

/-- Association-list assignment: replace the binding in place, or append
(`d[k] = v` on a Python dict). -/
def dinsert {α β : Type} [DecidableEq α] : List (α × β) → α → β → List (α × β)
  | [], k, v => [(k, v)]
  | (k', v') :: t, k, v => if k = k' then (k, v) :: t else (k', v') :: dinsert t k v

/-- Association-list deletion (`del d[k]` on a Python dict). -/
def ddelete {α β : Type} [DecidableEq α] : List (α × β) → α → List (α × β)
  | [], _ => []
  | (k', v') :: t, k => if k = k' then ddelete t k else (k', v') :: ddelete t k

/-- Set-style insertion into a member list (`set.add`). -/
def saddAddr (cl : List Addr) (a : Addr) : List Addr :=
  if a ∈ cl then cl else cl ++ [a]

/-- The members of a room other than `a`; also serves as set removal of `a`
(`set.remove`, the member list being duplicate-free). -/
def othersOf : List Addr → Addr → List Addr
  | [], _ => []
  | x :: t, a => if x = a then othersOf t a else x :: othersOf t a

/-- The two global tables of the server. -/
structure ServerState where
  rooms : List (String × List Addr)
  client_to_room : List (Addr × String)
deriving DecidableEq

/-- Decode outcome of an inbound datagram, as the handler observes it:
`json.loads` fails; it yields a non-mapping (so `.get` raises); or it yields
a mapping, of which only `action` and `room_code` are inspected. -/
inductive Parsed : Type
  | notJson : Parsed
  | nonMapping : Parsed
  | mapping (act : Option String) (room_code : Option String) : Parsed
deriving DecidableEq

/-- An outbound datagram's payload (the JSON wire encoding is external). -/
inductive OutMsg : Type
  | roomCreated (code : String) : OutMsg
  | joinedRoom (code : String) : OutMsg
  | errorMsg (msg : String) : OutMsg
  | relay (data : List Nat) : OutMsg
deriving DecidableEq

/-- `string.ascii_uppercase` as a char list. -/
def ascii_uppercase : List Char :=
  ['A', 'B', 'C', 'D', 'E', 'F', 'G', 'H', 'I', 'J', 'K', 'L', 'M',
   'N', 'O', 'P', 'Q', 'R', 'S', 'T', 'U', 'V', 'W', 'X', 'Y', 'Z']

/-- `string.digits` as a char list. -/
def digitChars : List Char :=
  ['0', '1', '2', '3', '4', '5', '6', '7', '8', '9']

/-- The room-code alphabet `string.ascii_uppercase + string.digits`. -/
def alphabet : List Char := ascii_uppercase ++ digitChars

/-- One call of `random.choices(alphabet, k=len)`: draw number `t` of the
generator reads `len` indices from the stream `rng`, each reduced modulo the
alphabet size. -/
def choices (rng : Nat → Nat) (t len : Nat) : String :=
  String.mk ((List.range len).map (fun j => alphabet.getD (rng (t * len + j) % alphabet.length) 'A'))

/-- The re-draw loop of `generate_room_code`, with an explicit attempt
counter `t` and fuel bounding the number of draws. -/
def generate_room_code_loop (rng : Nat → Nat) (len : Nat) (roomCodes : List String) : Nat → Nat → Option String
  | 0, _ => none
  | fuel + 1, t =>
    if choices rng t len ∈ roomCodes then generate_room_code_loop rng len roomCodes fuel (t + 1)
    else some (choices rng t len)

/-- `generate_room_code(length)`: redraw until the candidate is not a key of
`rooms` (here: not in the list of current room codes). -/
def generate_room_code (rng : Nat → Nat) (len fuel : Nat) (roomCodes : List String) : Option String :=
  generate_room_code_loop rng len roomCodes fuel 0

/-- A well-formed room code of length `len`: only uppercase letters and digits. -/
def validCode (len : Nat) (c : String) : Prop :=
  c.length = len ∧ ∀ ch ∈ c.data, ch ∈ alphabet

/-- The `except Exception` cleanup path (lines 74–82): if the address has a
session entry, remove it from the room the index names, delete the room when
it becomes empty, and drop the session entry. -/
def cleanupState (s : ServerState) (addr : Addr) : ServerState :=
  match dlookup s.client_to_room addr with
  | none => s
  | some code =>
    match dlookup s.rooms code with
    | none => ⟨s.rooms, ddelete s.client_to_room addr⟩
    | some cl =>
      if addr ∈ cl then
        if othersOf cl addr = [] then
          ⟨ddelete s.rooms code, ddelete s.client_to_room addr⟩
        else
          ⟨dinsert s.rooms code (othersOf cl addr), ddelete s.client_to_room addr⟩
      else ⟨s.rooms, ddelete s.client_to_room addr⟩

/-- The `create_room` branch (lines 37–43): generate a fresh code, create the
room with the sender as sole member, point the session index at it, reply
`room_created`. `none` only when the draw fuel runs out. -/
def createRoom (rng : Nat → Nat) (fuel : Nat) (s : ServerState) (addr : Addr) :
    Option (ServerState × List (Addr × OutMsg)) :=
  match generate_room_code rng 5 fuel (s.rooms.map Prod.fst) with
  | none => none
  | some code =>
    some (⟨dinsert s.rooms code [addr], dinsert s.client_to_room addr code⟩,
      [(addr, OutMsg.roomCreated code)])

/-- The `join_room` branch (lines 45–55): `message.get("room_code")` is looked
up among the room keys (`None` is never a key); on a hit the sender is added
to the member set and the index updated, otherwise the `Room not found` error
is returned and nothing changes. -/
def joinRoom (s : ServerState) (addr : Addr) (rc : Option String) :
    ServerState × List (Addr × OutMsg) :=
  match rc with
  | some c =>
    match dlookup s.rooms c with
    | some cl =>
      (⟨dinsert s.rooms c (saddAddr cl addr), dinsert s.client_to_room addr c⟩,
        [(addr, OutMsg.joinedRoom c)])
    | none => (s, [(addr, OutMsg.errorMsg "Room not found")])
  | none => (s, [(addr, OutMsg.errorMsg "Room not found")])

/-- The `send_transform` branch (lines 57–67): look the sender up in
`client_to_room`; if affiliated, relay the raw datagram to every other member
of the room; otherwise silently do nothing. -/
def sendTransform (s : ServerState) (addr : Addr) (raw : List Nat) :
    ServerState × List (Addr × OutMsg) :=
  match dlookup s.client_to_room addr with
  | some code =>
    match dlookup s.rooms code with
    | some cl => (s, (othersOf cl addr).map (fun b => (b, OutMsg.relay raw)))
    | none => (s, [])
  | none => (s, [])

/-- One iteration of the server loop on an inbound datagram (lines 30–82):
empty datagrams are skipped before decoding; a JSON decode failure is dropped
silently; a payload that is valid JSON but not a mapping raises
`AttributeError` at `.get`, which the generic handler turns into the cleanup
path; otherwise dispatch on `action`, unknown or missing actions falling
through. -/
def handleDatagram (rng : Nat → Nat) (fuel : Nat) (s : ServerState) (addr : Addr)
    (raw : List Nat) (p : Parsed) : Option (ServerState × List (Addr × OutMsg)) :=
  if raw = [] then some (s, [])
  else
    match p with
    | Parsed.notJson => some (s, [])
    | Parsed.nonMapping => some (cleanupState s addr, [])
    | Parsed.mapping act rc =>
      if act = some "create_room" then createRoom rng fuel s addr
      else if act = some "join_room" then some (joinRoom s addr rc)
      else if act = some "send_transform" then some (sendTransform s addr raw)
      else some (s, [])

/-- The states the server can reach from its empty start: a fully processed
datagram, or the exception-handler cleanup (which also covers a transport
failure mid-handler, since every state mutation precedes the sends). -/
inductive Reachable : ServerState → Prop
  | init : Reachable ⟨[], []⟩
  | recv (s s' : ServerState) (rng : Nat → Nat) (fuel : Nat) (a : Addr) (raw : List Nat)
      (p : Parsed) (outs : List (Addr × OutMsg)) :
      Reachable s → handleDatagram rng fuel s a raw p = some (s', outs) → Reachable s'
  | exc (s : ServerState) (a : Addr) : Reachable s → Reachable (cleanupState s a)

/-! ### Dictionary and member-set lemmas -/

theorem dlookup_dinsert {α β : Type} [DecidableEq α] (l : List (α × β)) (k : α) (v : β) (k' : α) :
    dlookup (dinsert l k v) k' = if k' = k then some v else dlookup l k' := by
  induction l with
  | nil => simp [dinsert, dlookup]
  | cons hd t ih =>
    obtain ⟨a, b⟩ := hd
    by_cases hka : k = a
    · subst hka
      simp only [dinsert, if_pos rfl, dlookup]
      by_cases h1 : k' = k <;> simp [h1]
    · have hak : ¬a = k := fun h => hka h.symm
      simp only [dinsert, if_neg hka, dlookup, ih]
      by_cases h1 : k' = a <;> by_cases h2 : k' = k
      · exact absurd (h2 ▸ h1) hka
      · simp [h1, h2, hka, hak]
      · simp [h1, h2, hka, hak]
      · simp [h1, h2, hka, hak]

theorem dlookup_ddelete {α β : Type} [DecidableEq α] (l : List (α × β)) (k : α) (k' : α) :
    dlookup (ddelete l k) k' = if k' = k then none else dlookup l k' := by
  induction l with
  | nil => simp [ddelete, dlookup]
  | cons hd t ih =>
    obtain ⟨a, b⟩ := hd
    by_cases hka : k = a
    · subst hka
      rw [show ddelete ((k, b) :: t) k = ddelete t k by simp [ddelete], ih]
      by_cases h1 : k' = k <;> simp [h1, dlookup]
    · have hak : ¬a = k := fun h => hka h.symm
      simp only [ddelete, if_neg hka, dlookup, ih]
      by_cases h1 : k' = a <;> by_cases h2 : k' = k
      · exact absurd (h2 ▸ h1) hka
      · simp [h1, h2, hka, hak]
      · simp [h1, h2, hka, hak]
      · simp [h1, h2, hka, hak]

theorem mem_keys_of_dlookup {α β : Type} [DecidableEq α] (l : List (α × β)) (k : α) (v : β)
    (h : dlookup l k = some v) : k ∈ l.map Prod.fst := by
  induction l with
  | nil => simp [dlookup] at h
  | cons hd t ih =>
    obtain ⟨a, b⟩ := hd
    by_cases hka : k = a
    · subst hka
      simp
    · simp only [dlookup, if_neg hka] at h
      simpa using Or.inr (ih h)

theorem dlookup_eq_none_of_not_mem_keys {α β : Type} [DecidableEq α] (l : List (α × β)) (k : α)
    (h : k ∉ l.map Prod.fst) : dlookup l k = none := by
  cases hl : dlookup l k with
  | none => rfl
  | some v => exact absurd (mem_keys_of_dlookup l k v hl) h

theorem mem_saddAddr (cl : List Addr) (a x : Addr) :
    x ∈ saddAddr cl a ↔ x ∈ cl ∨ x = a := by
  unfold saddAddr
  by_cases h : a ∈ cl
  · simp only [if_pos h]
    constructor
    · exact Or.inl
    · rintro (hx | rfl)
      · exact hx
      · exact h
  · simp [if_neg h]

theorem saddAddr_ne_nil (cl : List Addr) (a : Addr) : saddAddr cl a ≠ [] := by
  intro hcontra
  have : a ∈ saddAddr cl a := (mem_saddAddr cl a a).mpr (Or.inr rfl)
  rw [hcontra] at this
  exact absurd this (List.not_mem_nil a)

theorem mem_othersOf (cl : List Addr) (a x : Addr) :
    x ∈ othersOf cl a ↔ x ∈ cl ∧ x ≠ a := by
  induction cl with
  | nil => simp [othersOf]
  | cons hd t ih =>
    by_cases h : hd = a
    · subst h
      have hred : othersOf (hd :: t) hd = othersOf t hd := by simp [othersOf]
      rw [hred, ih, List.mem_cons]
      constructor
      · rintro ⟨hx, hne⟩
        exact ⟨Or.inr hx, hne⟩
      · rintro ⟨hor, hne⟩
        cases hor with
        | inl h1 => exact absurd h1 hne
        | inr hx => exact ⟨hx, hne⟩
    · have hred : othersOf (hd :: t) a = hd :: othersOf t a := by simp [othersOf, h]
      rw [hred, List.mem_cons, List.mem_cons, ih]
      constructor
      · rintro (rfl | ⟨hx, hne⟩)
        · exact ⟨Or.inl rfl, h⟩
        · exact ⟨Or.inr hx, hne⟩
      · rintro ⟨hor, hne⟩
        cases hor with
        | inl h1 => exact Or.inl h1
        | inr hx => exact Or.inr ⟨hx, hne⟩

/-! ### Dispatch lemmas for `handleDatagram` -/

theorem handle_notJson (rng : Nat → Nat) (fuel : Nat) (s : ServerState) (a : Addr)
    (raw : List Nat) (hraw : raw ≠ []) :
    handleDatagram rng fuel s a raw Parsed.notJson = some (s, []) := by
  simp [handleDatagram, hraw]

theorem handle_nonMapping (rng : Nat → Nat) (fuel : Nat) (s : ServerState) (a : Addr)
    (raw : List Nat) (hraw : raw ≠ []) :
    handleDatagram rng fuel s a raw Parsed.nonMapping = some (cleanupState s a, []) := by
  simp [handleDatagram, hraw]

theorem handle_create (rng : Nat → Nat) (fuel : Nat) (s : ServerState) (a : Addr)
    (raw : List Nat) (rc : Option String) (hraw : raw ≠ []) :
    handleDatagram rng fuel s a raw (Parsed.mapping (some "create_room") rc)
      = createRoom rng fuel s a := by
  simp [handleDatagram, hraw]

theorem handle_join (rng : Nat → Nat) (fuel : Nat) (s : ServerState) (a : Addr)
    (raw : List Nat) (rc : Option String) (hraw : raw ≠ []) :
    handleDatagram rng fuel s a raw (Parsed.mapping (some "join_room") rc)
      = some (joinRoom s a rc) := by
  simp [handleDatagram, hraw]

theorem handle_send (rng : Nat → Nat) (fuel : Nat) (s : ServerState) (a : Addr)
    (raw : List Nat) (rc : Option String) (hraw : raw ≠ []) :
    handleDatagram rng fuel s a raw (Parsed.mapping (some "send_transform") rc)
      = some (sendTransform s a raw) := by
  simp [handleDatagram, hraw]

/-! ### Room-code generator lemmas -/

theorem alphabet_getD_mem (i : Nat) : alphabet.getD i 'A' ∈ alphabet := by
  by_cases h : i < alphabet.length
  · rw [List.getD_eq_getElem alphabet 'A' h]
    exact List.getElem_mem h
  · rw [List.getD_eq_default alphabet 'A' (Nat.le_of_not_lt h)]
    decide

theorem choices_valid (rng : Nat → Nat) (t len : Nat) : validCode len (choices rng t len) := by
  constructor
  · show ((List.range len).map _).length = len
    simp
  · intro ch hch
    have hch' : ch ∈ (List.range len).map
        (fun j => alphabet.getD (rng (t * len + j) % alphabet.length) 'A') := hch
    obtain ⟨j, _, rfl⟩ := List.mem_map.mp hch'
    exact alphabet_getD_mem _

theorem generate_loop_spec (rng : Nat → Nat) (len : Nat) (roomCodes : List String) :
    ∀ fuel t c, generate_room_code_loop rng len roomCodes fuel t = some c →
      validCode len c ∧ c ∉ roomCodes := by
  intro fuel
  induction fuel with
  | zero => intro t c h; simp [generate_room_code_loop] at h
  | succ n ih =>
    intro t c h
    by_cases hc : choices rng t len ∈ roomCodes
    · exact ih (t + 1) c (by simpa [generate_room_code_loop, hc] using h)
    · have : choices rng t len = c := by
        simpa [generate_room_code_loop, hc] using h
      exact this ▸ ⟨choices_valid rng t len, hc⟩

theorem generate_room_code_spec (rng : Nat → Nat) (len fuel : Nat) (roomCodes : List String)
    (c : String) (h : generate_room_code rng len fuel roomCodes = some c) :
    validCode len c ∧ c ∉ roomCodes :=
  generate_loop_spec rng len roomCodes fuel 0 c h

theorem generate_loop_isSome (rng : Nat → Nat) (len : Nat) (roomCodes : List String) :
    ∀ fuel t0, (∃ t, t0 ≤ t ∧ t < t0 + fuel ∧ choices rng t len ∉ roomCodes) →
      ∃ c, generate_room_code_loop rng len roomCodes fuel t0 = some c := by
  intro fuel
  induction fuel with
  | zero =>
    rintro t0 ⟨t, h1, h2, _⟩
    omega
  | succ n ih =>
    rintro t0 ⟨t, h1, h2, h3⟩
    by_cases hc : choices rng t0 len ∈ roomCodes
    · have hne : t ≠ t0 := fun h => h3 (h ▸ hc)
      have := ih (t0 + 1) ⟨t, by omega, by omega, h3⟩
      simpa [generate_room_code_loop, hc] using this
    · exact ⟨choices rng t0 len, by simp [generate_room_code_loop, hc]⟩

/-! ### All codes of a given length: pigeonhole for freshness -/

/-- All character lists of length `n` over the code alphabet. -/
def allCodeLists : Nat → List (List Char)
  | 0 => [[]]
  | n + 1 => alphabet.flatMap (fun ch => (allCodeLists n).map (fun l => ch :: l))

theorem length_bind_cons (chs : List Char) (F : List (List Char)) :
    (chs.flatMap (fun ch => F.map (fun l => ch :: l))).length = chs.length * F.length := by
  induction chs with
  | nil => simp
  | cons c t ih =>
    rw [List.flatMap_cons, List.length_append, List.length_map, ih, List.length_cons]
    ring

theorem length_allCodeLists (n : Nat) : (allCodeLists n).length = 36 ^ n := by
  induction n with
  | zero => simp [allCodeLists]
  | succ n ih =>
    show (alphabet.flatMap _).length = 36 ^ (n + 1)
    rw [length_bind_cons, ih, pow_succ]
    norm_num [alphabet, ascii_uppercase, digitChars]
    ring

theorem nodup_bind_cons (chs : List Char) (hchs : chs.Nodup) (F : List (List Char))
    (hF : F.Nodup) : (chs.flatMap (fun ch => F.map (fun l => ch :: l))).Nodup := by
  induction chs with
  | nil => simp
  | cons c t ih =>
    rw [List.flatMap_cons, List.nodup_append]
    obtain ⟨hc, ht⟩ := List.nodup_cons.mp hchs
    refine ⟨hF.map (fun l1 l2 h => by injection h), ih ht, ?_⟩
    intro x hx1 hx2
    obtain ⟨l1, _, rfl⟩ := List.mem_map.mp hx1
    obtain ⟨ch', hch', hx2'⟩ := List.mem_flatMap.mp hx2
    obtain ⟨l2, _, heq⟩ := List.mem_map.mp hx2'
    have hcc : ch' = c := by injection heq
    exact hc (hcc ▸ hch')

theorem nodup_allCodeLists (n : Nat) : (allCodeLists n).Nodup := by
  induction n with
  | zero => simp [allCodeLists]
  | succ n ih => exact nodup_bind_cons alphabet (by decide) _ ih

theorem mem_allCodeLists (n : Nat) (l : List Char) :
    l ∈ allCodeLists n ↔ l.length = n ∧ ∀ c ∈ l, c ∈ alphabet := by
  induction n generalizing l with
  | zero => cases l <;> simp [allCodeLists]
  | succ n ih =>
    constructor
    · intro h
      obtain ⟨ch, hch, h2⟩ := List.mem_flatMap.mp h
      obtain ⟨l2, hl2, rfl⟩ := List.mem_map.mp h2
      obtain ⟨hlen, hmem⟩ := (ih l2).mp hl2
      refine ⟨by simp [hlen], ?_⟩
      intro c hc
      rcases List.mem_cons.mp hc with rfl | hc2
      · exact hch
      · exact hmem c hc2
    · rintro ⟨hlen, hmem⟩
      cases l with
      | nil => simp at hlen
      | cons c t =>
        apply List.mem_flatMap.mpr
        refine ⟨c, hmem c (List.mem_cons_self c t), ?_⟩
        apply List.mem_map.mpr
        exact ⟨t, (ih t).mpr ⟨by simpa using hlen,
          fun x hx => hmem x (List.mem_cons_of_mem c hx)⟩, rfl⟩

/-- All well-formed codes of length `n`, as strings. -/
def allCodesList (n : Nat) : List String := (allCodeLists n).map String.mk

theorem string_mk_injective : Function.Injective String.mk := by
  intro a b h
  injection h

theorem mem_allCodesList (n : Nat) (c : String) :
    c ∈ allCodesList n ↔ validCode n c := by
  constructor
  · intro h
    obtain ⟨l, hl, rfl⟩ := List.mem_map.mp h
    obtain ⟨h1, h2⟩ := (mem_allCodeLists n l).mp hl
    exact ⟨h1 ▸ rfl, h2⟩
  · rintro ⟨h1, h2⟩
    apply List.mem_map.mpr
    refine ⟨c.data, (mem_allCodeLists n c.data).mpr ⟨?_, h2⟩, rfl⟩
    exact h1

theorem card_allCodesList (n : Nat) : (allCodesList n).toFinset.card = 36 ^ n := by
  simp only [allCodesList]
  rw [List.toFinset_card_of_nodup ((nodup_allCodeLists n).map string_mk_injective)]
  rw [List.length_map, length_allCodeLists]

theorem exists_fresh_code (len : Nat) (roomCodes : List String)
    (h : roomCodes.toFinset.card < 36 ^ len) :
    ∃ c, validCode len c ∧ c ∉ roomCodes := by
  by_contra hcontra
  push_neg at hcontra
  have hsub : (allCodesList len).toFinset ⊆ roomCodes.toFinset := by
    intro c hc
    rw [List.mem_toFinset] at hc ⊢
    exact hcontra c ((mem_allCodesList len c).mp hc)
  have hcard := Finset.card_le_card hsub
  rw [card_allCodesList] at hcard
  omega

/-! ### Shape of one step, and the registry invariant -/

theorem handle_state_shape (rng : Nat → Nat) (fuel : Nat) (s : ServerState) (a : Addr)
    (raw : List Nat) (p : Parsed) (s' : ServerState) (outs : List (Addr × OutMsg))
    (heq : handleDatagram rng fuel s a raw p = some (s', outs)) :
    s' = s ∨ s' = cleanupState s a
    ∨ (∃ code, dlookup s.rooms code = none
        ∧ s' = ⟨dinsert s.rooms code [a], dinsert s.client_to_room a code⟩)
    ∨ (∃ c cl, dlookup s.rooms c = some cl
        ∧ s' = ⟨dinsert s.rooms c (saddAddr cl a), dinsert s.client_to_room a c⟩) := by
  by_cases hraw : raw = []
  · left
    simp only [handleDatagram, if_pos hraw, Option.some.injEq, Prod.mk.injEq] at heq
    exact heq.1.symm
  · cases p with
    | notJson =>
      left
      rw [handle_notJson rng fuel s a raw hraw] at heq
      simp only [Option.some.injEq, Prod.mk.injEq] at heq
      exact heq.1.symm
    | nonMapping =>
      right; left
      rw [handle_nonMapping rng fuel s a raw hraw] at heq
      simp only [Option.some.injEq, Prod.mk.injEq] at heq
      exact heq.1.symm
    | mapping act rc =>
      by_cases hcr : act = some "create_room"
      · right; right; left
        rw [hcr, handle_create rng fuel s a raw rc hraw] at heq
        simp only [createRoom] at heq
        cases hg : generate_room_code rng 5 fuel (s.rooms.map Prod.fst) with
        | none => rw [hg] at heq; simp at heq
        | some code =>
          rw [hg] at heq
          simp only [Option.some.injEq, Prod.mk.injEq] at heq
          refine ⟨code, ?_, heq.1.symm⟩
          exact dlookup_eq_none_of_not_mem_keys _ _
            (generate_room_code_spec rng 5 fuel _ code hg).2
      · by_cases hjr : act = some "join_room"
        · rw [hjr, handle_join rng fuel s a raw rc hraw] at heq
          cases rc with
          | none =>
            left
            simp only [joinRoom, Option.some.injEq, Prod.mk.injEq] at heq
            exact heq.1.symm
          | some c =>
            cases hl : dlookup s.rooms c with
            | none =>
              left
              simp only [joinRoom, hl, Option.some.injEq, Prod.mk.injEq] at heq
              exact heq.1.symm
            | some cl =>
              right; right; right
              refine ⟨c, cl, hl, ?_⟩
              simp only [joinRoom, hl, Option.some.injEq, Prod.mk.injEq] at heq
              exact heq.1.symm
        · by_cases hst : act = some "send_transform"
          · left
            rw [hst, handle_send rng fuel s a raw rc hraw] at heq
            cases h1 : dlookup s.client_to_room a with
            | none =>
              simp only [sendTransform, h1, Option.some.injEq, Prod.mk.injEq] at heq
              exact heq.1.symm
            | some code =>
              cases h2 : dlookup s.rooms code with
              | none =>
                simp only [sendTransform, h1, h2, Option.some.injEq, Prod.mk.injEq] at heq
                exact heq.1.symm
              | some cl =>
                simp only [sendTransform, h1, h2, Option.some.injEq, Prod.mk.injEq] at heq
                exact heq.1.symm
          · left
            simp only [handleDatagram, if_neg hraw, hcr, hjr, hst, if_false,
              Option.some.injEq, Prod.mk.injEq] at heq
            exact heq.1.symm


/-- The C4 registry invariant: no room of the registry has an empty member set. -/
def roomsNonempty (rooms : List (String × List Addr)) : Prop :=
  ∀ c cl, dlookup rooms c = some cl → cl ≠ []

theorem roomsNonempty_ddelete (rooms : List (String × List Addr)) (code : String)
    (h : roomsNonempty rooms) : roomsNonempty (ddelete rooms code) := by
  intro c cl hc
  rw [dlookup_ddelete] at hc
  by_cases h5 : c = code
  · rw [if_pos h5] at hc
    exact absurd hc (by simp)
  · rw [if_neg h5] at hc
    exact h c cl hc

theorem roomsNonempty_dinsert (rooms : List (String × List Addr)) (code : String)
    (cl : List Addr) (hcl : cl ≠ []) (h : roomsNonempty rooms) :
    roomsNonempty (dinsert rooms code cl) := by
  intro c cl' hc
  rw [dlookup_dinsert] at hc
  by_cases h5 : c = code
  · rw [if_pos h5] at hc
    injection hc with h6
    rw [← h6]
    exact hcl
  · rw [if_neg h5] at hc
    exact h c cl' hc

theorem cleanup_roomsNonempty (s : ServerState) (a : Addr) (h : roomsNonempty s.rooms) :
    roomsNonempty (cleanupState s a).rooms := by
  unfold cleanupState
  split
  · exact h
  · split
    · exact h
    · split
      · split
        · exact roomsNonempty_ddelete s.rooms _ h
        · next cl h2 h3 h4 => exact roomsNonempty_dinsert s.rooms _ (othersOf cl a) h4 h
      · exact h

theorem reachable_roomsNonempty (s : ServerState) (h : Reachable s) :
    roomsNonempty s.rooms := by
  induction h with
  | init => intro c cl hc; simp [dlookup] at hc
  | recv s s' rng fuel a raw p outs hs heq ih =>
    rcases handle_state_shape rng fuel s a raw p s' outs heq with
      rfl | rfl | ⟨code, hcode, rfl⟩ | ⟨c, cl, hcl, rfl⟩
    · exact ih
    · exact cleanup_roomsNonempty s a ih
    · exact roomsNonempty_dinsert s.rooms code [a] (by simp) ih
    · exact roomsNonempty_dinsert s.rooms c (saddAddr cl a) (saddAddr_ne_nil cl a) ih
  | exc s a hs ih => exact cleanup_roomsNonempty s a ih

theorem cleanup_deletes_last (s : ServerState) (a : Addr) (c : String)
    (h1 : dlookup s.client_to_room a = some c) (h2 : dlookup s.rooms c = some [a]) :
    dlookup (cleanupState s a).rooms c = none := by
  simp only [cleanupState, h1, h2]
  simp [othersOf, dlookup_ddelete]

theorem joinNotFound (rng : Nat → Nat) (fuel : Nat) (s : ServerState) (a : Addr)
    (raw : List Nat) (c : String) (hraw : raw ≠ []) (hc : dlookup s.rooms c = none) :
    handleDatagram rng fuel s a raw (Parsed.mapping (some "join_room") (some c))
      = some (s, [(a, OutMsg.errorMsg "Room not found")]) := by
  rw [handle_join rng fuel s a raw (some c) hraw]
  simp [joinRoom, hc]

/-! ### Concrete draw stream for closed runs -/

/-- Deterministic index stream for concrete runs: every index of draw `t`
equals `t`, so draw 0 yields `"AAAAA"`, draw 1 yields `"BBBBB"`, and so on. -/
def rngDemo : Nat → Nat := fun i => i / 5

/-! ### The claims -/

/-- C1: the claim says the room member sets and `client_to_room` never
diverge, and that an identity that creates a second room is no longer a
member of its first room. Evaluating the code: identity 1 creates room
`AAAAA`, then creates room `BBBBB`; afterwards `client_to_room` maps 1 to
`BBBBB` while 1 still sits in `AAAAA`'s member set — the two structures
diverge, so the run contradicts the claim. -/
theorem lockstep_violation :
    handleDatagram rngDemo 2 ⟨[], []⟩ 1 [123] (Parsed.mapping (some "create_room") none)
      = some (⟨[("AAAAA", [1])], [(1, "AAAAA")]⟩, [(1, OutMsg.roomCreated "AAAAA")])
    ∧ handleDatagram rngDemo 2 ⟨[("AAAAA", [1])], [(1, "AAAAA")]⟩ 1 [123]
        (Parsed.mapping (some "create_room") none)
      = some (⟨[("AAAAA", [1]), ("BBBBB", [1])], [(1, "BBBBB")]⟩,
          [(1, OutMsg.roomCreated "BBBBB")])
    ∧ dlookup ([("AAAAA", [1]), ("BBBBB", [1])] : List (String × List Addr)) "AAAAA" = some [1]
    ∧ dlookup ([(1, "BBBBB")] : List (Addr × String)) 1 = some "BBBBB" := by
  refine ⟨?_, ?_, ?_, ?_⟩ <;> decide

/-- C2: with the sender affiliated to room `C` and `B` another member of
`C`, a `send_transform` datagram is relayed, as the unmodified raw bytes,
to exactly the other members of `C` — in particular to `B` — and never back
to the sender; the state is unchanged. -/
theorem send_transform_broadcast (rng : Nat → Nat) (fuel : Nat) (s : ServerState)
    (A B : Addr) (C : String) (cl : List Addr) (raw : List Nat) (rc : Option String)
    (hraw : raw ≠ []) (hA : dlookup s.client_to_room A = some C)
    (hC : dlookup s.rooms C = some cl) (hB : B ∈ cl) (hBA : B ≠ A) :
    handleDatagram rng fuel s A raw (Parsed.mapping (some "send_transform") rc)
      = some (s, (othersOf cl A).map (fun b => (b, OutMsg.relay raw)))
    ∧ (B, OutMsg.relay raw) ∈ (othersOf cl A).map (fun b => (b, OutMsg.relay raw))
    ∧ ∀ m, (A, m) ∉ (othersOf cl A).map (fun b => (b, OutMsg.relay raw)) := by
  refine ⟨?_, ?_, ?_⟩
  · rw [handle_send rng fuel s A raw rc hraw]
    simp [sendTransform, hA, hC]
  · exact List.mem_map.mpr ⟨B, (mem_othersOf cl A B).mpr ⟨hB, hBA⟩, rfl⟩
  · intro m hm
    obtain ⟨b, hb, heq⟩ := List.mem_map.mp hm
    have hba : b = A := congrArg Prod.fst heq
    exact ((mem_othersOf cl A b).mp hb).2 hba

/-- Witness for C2: in the room `AAAAA` with members 1 and 2, a transform
from 1 goes to 2 only. -/
theorem send_transform_broadcast_witness :
    handleDatagram rngDemo 0 ⟨[("AAAAA", [1, 2])], [(1, "AAAAA"), (2, "AAAAA")]⟩ 1 [7]
        (Parsed.mapping (some "send_transform") none)
      = some (⟨[("AAAAA", [1, 2])], [(1, "AAAAA"), (2, "AAAAA")]⟩,
          (othersOf [1, 2] 1).map (fun b => (b, OutMsg.relay [7])))
    ∧ (2, OutMsg.relay [7]) ∈ (othersOf [1, 2] 1).map (fun b => (b, OutMsg.relay [7]))
    ∧ ∀ m, (1, m) ∉ (othersOf [1, 2] 1).map (fun b => (b, OutMsg.relay [7])) :=
  send_transform_broadcast rngDemo 0 ⟨[("AAAAA", [1, 2])], [(1, "AAAAA"), (2, "AAAAA")]⟩
    1 2 "AAAAA" [1, 2] [7] none (by decide) (by decide) (by decide) (by decide) (by decide)

/-- C3: a `join_room` whose code is not a registry key gets exactly one
reply, the structured `Room not found` error to the sender, and both tables
are left unchanged. -/
theorem join_room_not_found (rng : Nat → Nat) (fuel : Nat) (s : ServerState) (a : Addr)
    (raw : List Nat) (c : String) (hraw : raw ≠ []) (hc : dlookup s.rooms c = none) :
    handleDatagram rng fuel s a raw (Parsed.mapping (some "join_room") (some c))
      = some (s, [(a, OutMsg.errorMsg "Room not found")]) :=
  joinNotFound rng fuel s a raw c hraw hc

/-- Witness for C3: joining the absent code `ZZZZZ`. -/
theorem join_room_not_found_witness :
    handleDatagram rngDemo 0 ⟨[("AAAAA", [1])], [(1, "AAAAA")]⟩ 2 [10]
        (Parsed.mapping (some "join_room") (some "ZZZZZ"))
      = some (⟨[("AAAAA", [1])], [(1, "AAAAA")]⟩, [(2, OutMsg.errorMsg "Room not found")]) :=
  join_room_not_found rngDemo 0 ⟨[("AAAAA", [1])], [(1, "AAAAA")]⟩ 2 [10] "ZZZZZ"
    (by decide) (by decide)

/-- C4: in every reachable state no registered room is empty; removing the
last member through the cleanup path deletes the room in the same step; and
a later `join_room` with a code that is no longer registered is answered
with the `Room not found` error without any state change. -/
theorem no_empty_rooms (s : ServerState) (h : Reachable s) :
    (∀ c cl, dlookup s.rooms c = some cl → cl ≠ [])
    ∧ (∀ a c, dlookup s.client_to_room a = some c → dlookup s.rooms c = some [a] →
        dlookup (cleanupState s a).rooms c = none)
    ∧ (∀ rng fuel a raw c, raw ≠ [] → dlookup s.rooms c = none →
        handleDatagram rng fuel s a raw (Parsed.mapping (some "join_room") (some c))
          = some (s, [(a, OutMsg.errorMsg "Room not found")])) := by
  refine ⟨reachable_roomsNonempty s h, ?_, ?_⟩
  · intro a c h1 h2
    exact cleanup_deletes_last s a c h1 h2
  · intro rng fuel a raw c hraw hc
    exact joinNotFound rng fuel s a raw c hraw hc

/-- Witness for C4: the state after identity 1 created room `AAAAA` is
reachable, and the three conjuncts hold of it. -/
theorem no_empty_rooms_witness :
    (∀ c cl, dlookup ([("AAAAA", [1])] : List (String × List Addr)) c = some cl → cl ≠ [])
    ∧ (∀ a c, dlookup ([(1, "AAAAA")] : List (Addr × String)) a = some c →
        dlookup ([("AAAAA", [1])] : List (String × List Addr)) c = some [a] →
        dlookup (cleanupState ⟨[("AAAAA", [1])], [(1, "AAAAA")]⟩ a).rooms c = none)
    ∧ (∀ rng fuel a raw c, raw ≠ [] →
        dlookup ([("AAAAA", [1])] : List (String × List Addr)) c = none →
        handleDatagram rng fuel ⟨[("AAAAA", [1])], [(1, "AAAAA")]⟩ a raw
            (Parsed.mapping (some "join_room") (some c))
          = some (⟨[("AAAAA", [1])], [(1, "AAAAA")]⟩,
              [(a, OutMsg.errorMsg "Room not found")])) :=
  no_empty_rooms ⟨[("AAAAA", [1])], [(1, "AAAAA")]⟩
    (Reachable.recv ⟨[], []⟩ ⟨[("AAAAA", [1])], [(1, "AAAAA")]⟩ rngDemo 2 1 [123]
      (Parsed.mapping (some "create_room") none) [(1, OutMsg.roomCreated "AAAAA")]
      Reachable.init (by decide))

/-- C5: a successful `create_room` replies `room_created` with a code of
exactly 5 characters drawn from uppercase letters and digits, distinct from
every code registered at generation time. -/
theorem create_room_code_valid (rng : Nat → Nat) (fuel : Nat) (s : ServerState) (a : Addr)
    (raw : List Nat) (rc : Option String) (s' : ServerState) (outs : List (Addr × OutMsg))
    (hraw : raw ≠ [])
    (h : handleDatagram rng fuel s a raw (Parsed.mapping (some "create_room") rc)
      = some (s', outs)) :
    ∃ code, outs = [(a, OutMsg.roomCreated code)] ∧ validCode 5 code
      ∧ dlookup s.rooms code = none := by
  rw [handle_create rng fuel s a raw rc hraw] at h
  simp only [createRoom] at h
  cases hg : generate_room_code rng 5 fuel (s.rooms.map Prod.fst) with
  | none => rw [hg] at h; simp at h
  | some code =>
    rw [hg] at h
    simp only [Option.some.injEq, Prod.mk.injEq] at h
    obtain ⟨hv, hfresh⟩ := generate_room_code_spec rng 5 fuel _ code hg
    exact ⟨code, h.2.symm, hv, dlookup_eq_none_of_not_mem_keys _ _ hfresh⟩

/-- Witness for C5: the first creation from the empty state. -/
theorem create_room_code_valid_witness :
    ∃ code, [(1, OutMsg.roomCreated "AAAAA")] = [(1, OutMsg.roomCreated code)]
      ∧ validCode 5 code ∧ dlookup ([] : List (String × List Addr)) code = none :=
  create_room_code_valid rngDemo 1 ⟨[], []⟩ 1 [123] none ⟨[("AAAAA", [1])], [(1, "AAAAA")]⟩
    [(1, OutMsg.roomCreated "AAAAA")] (by decide) (by decide)

/-- C6: a `send_transform` from a sender with no session entry produces no
outbound datagram at all and changes nothing. -/
theorem send_transform_unaffiliated (rng : Nat → Nat) (fuel : Nat) (s : ServerState)
    (a : Addr) (raw : List Nat) (rc : Option String) (hraw : raw ≠ [])
    (ha : dlookup s.client_to_room a = none) :
    handleDatagram rng fuel s a raw (Parsed.mapping (some "send_transform") rc)
      = some (s, []) := by
  rw [handle_send rng fuel s a raw rc hraw]
  simp [sendTransform, ha]

/-- Witness for C6: identity 1 is unaffiliated and its transform vanishes. -/
theorem send_transform_unaffiliated_witness :
    handleDatagram rngDemo 0 ⟨[("AAAAA", [2])], [(2, "AAAAA")]⟩ 1 [7]
        (Parsed.mapping (some "send_transform") none)
      = some (⟨[("AAAAA", [2])], [(2, "AAAAA")]⟩, []) :=
  send_transform_unaffiliated rngDemo 0 ⟨[("AAAAA", [2])], [(2, "AAAAA")]⟩ 1 [7] none
    (by decide) (by decide)

/-- C7: the claim says every malformed payload — including valid JSON that
is not a JSON object — is dropped with no reply and no state change.
Evaluating the code on the JSON array `[1]` (bytes 91,49,93) from identity 1,
a member of room `AAAAA`: the `AttributeError` raised by `.get` lands in the
generic exception handler, whose cleanup removes 1 from the room and, it
being emptied, deletes the room and the session entry — the state does
change, contradicting the claim (no reply is indeed sent). -/
theorem nonmapping_json_cleanup :
    handleDatagram rngDemo 0 ⟨[("AAAAA", [1])], [(1, "AAAAA")]⟩ 1 [91, 49, 93]
        Parsed.nonMapping
      = some (⟨[], []⟩, [])
    ∧ (⟨[], []⟩ : ServerState) ≠ ⟨[("AAAAA", [1])], [(1, "AAAAA")]⟩ := by
  refine ⟨?_, ?_⟩ <;> decide

/-- C8: when fewer than `36 ^ len` codes are registered, a fresh well-formed
code exists, and any draw stream that can realize every well-formed code (the
deterministic counterpart of uniform random draws) makes the re-draw loop
terminate with such a code. -/
theorem generate_room_code_total (len : Nat) (rng : Nat → Nat) (roomCodes : List String)
    (hcard : roomCodes.toFinset.card < 36 ^ len)
    (hcov : ∀ c, validCode len c → ∃ t, choices rng t len = c) :
    ∃ fuel code, generate_room_code rng len fuel roomCodes = some code
      ∧ validCode len code ∧ code ∉ roomCodes := by
  obtain ⟨c, hv, hfresh⟩ := exists_fresh_code len roomCodes hcard
  obtain ⟨t, ht⟩ := hcov c hv
  obtain ⟨code, hcode⟩ := generate_loop_isSome rng len roomCodes (t + 1) 0
    ⟨t, Nat.zero_le t, by omega, by rw [ht]; exact hfresh⟩
  obtain ⟨hval, hnotin⟩ := generate_loop_spec rng len roomCodes (t + 1) 0 code hcode
  exact ⟨t + 1, code, hcode, hval, hnotin⟩

theorem choices_id_cov : ∀ c, validCode 1 c → ∃ t, choices id t 1 = c := by
  rintro c ⟨h1, h2⟩
  obtain ⟨ch, hch⟩ : ∃ ch, c.data = [ch] := by
    cases hd : c.data with
    | nil =>
      rw [show c.length = c.data.length from rfl, hd] at h1
      simp at h1
    | cons x t =>
      cases t with
      | nil => exact ⟨x, rfl⟩
      | cons y t2 =>
        rw [show c.length = c.data.length from rfl, hd] at h1
        simp at h1
  have hmem : ch ∈ alphabet := h2 ch (by rw [hch]; exact List.mem_singleton.mpr rfl)
  obtain ⟨i, hi, hieq⟩ := List.getElem_of_mem hmem
  refine ⟨i, ?_⟩
  unfold choices
  have hr : (List.range 1).map (fun j => alphabet.getD (id (i * 1 + j) % alphabet.length) 'A')
      = [alphabet.getD (i % alphabet.length) 'A'] := by
    simp [List.range_succ]
  rw [hr, Nat.mod_eq_of_lt hi, List.getD_eq_getElem alphabet 'A' hi, hieq, ← hch]

/-- Witness for C8: length-1 codes against the empty registry with the
identity stream, which enumerates the whole alphabet. -/
theorem generate_room_code_total_witness :
    ∃ fuel code, generate_room_code id 1 fuel [] = some code
      ∧ validCode 1 code ∧ code ∉ ([] : List String) :=
  generate_room_code_total 1 id [] (by simp) choices_id_cov

/-- C9: a `join_room` without a `room_code` field is not dropped: the absent
field is looked up as a missing key, so the sender gets the same
`Room not found` error, and no state changes. -/
theorem join_room_missing_code (rng : Nat → Nat) (fuel : Nat) (s : ServerState) (a : Addr)
    (b : Nat) (rest : List Nat) :
    handleDatagram rng fuel s a (b :: rest) (Parsed.mapping (some "join_room") none)
      = some (s, [(a, OutMsg.errorMsg "Room not found")]) := by
  rw [handle_join rng fuel s a (b :: rest) none (by simp)]
  simp [joinRoom]

/-- C10: a zero-length datagram is skipped before any decoding: no reply,
no state change, whatever the decoder would have said. -/
theorem empty_datagram_skipped (rng : Nat → Nat) (fuel : Nat) (s : ServerState) (a : Addr)
    (p : Parsed) : handleDatagram rng fuel s a [] p = some (s, []) := by
  simp [handleDatagram]
